import Mathlib

/-!
Shallow embedding of sussol/react-native-database: the `Database` facade over a
Realm store (src/Database.js) and the `Settings` facade (src/Settings.js).
Observable effects — listener notifications, store mutations, store queries —
are recorded in an explicit chronological trace inside the state, so that
statements about notification counts and about the order between notification
and persistence can be made and proved.
-/

/-- A JavaScript primitive value, as far as the embedded code observes it. -/
inductive JSVal where
  | null
  | undefined
  | str (s : String)
  | num (n : Int)
  | boolean (b : Bool)
deriving DecidableEq

/-- JavaScript `value.toString()`: throws (modelled as `none`) on `null` and
`undefined`; otherwise yields the string representation. -/
def JSVal.toStringJS : JSVal → Option String
  | .null => none
  | .undefined => none
  | .str s => some s
  | .num n => some (toString n)
  | .boolean b => some (if b then "true" else "false")

/-- A record: an ordered field map, plus whether the object exposes a
`destructor` teardown hook (duck-typed in `Database.delete`; the hook call is
recorded in the trace). -/
structure DBRecord where
  fields : List (String × JSVal)
  hasDestructor : Bool
deriving DecidableEq

/-- JavaScript property access `r[f]`: `undefined` when the field is absent. -/
def DBRecord.get (r : DBRecord) (f : String) : JSVal :=
  match r.fields.find? (fun p => p.1 == f) with
  | some p => p.2
  | none => .undefined

/-- Modelled from the spec: `CHANGE_TYPES` from src/constants.js, which is not
among the provided sources; §3 of the spec: `changeKind` ∈
{CREATE, UPDATE, DELETE, WIPE}. -/
inductive ChangeType where
  | CREATE
  | UPDATE
  | DELETE
  | WIPE
deriving DecidableEq

/-- The argument tuple `(changeKind, recordType, record, ...listenerArgs)`
passed to each listener; `deleteAll` passes neither a recordType nor a
record. -/
structure ChangeEvent where
  changeKind : ChangeType
  recordType : Option String
  record : Option DBRecord
  context : List JSVal
deriving DecidableEq

/-- One observable effect, recorded in chronological order. -/
inductive TraceEntry where
  | notify (listener : Nat) (e : ChangeEvent)
  | destructorCall (r : DBRecord)
  | storeCreate (type : String) (r : DBRecord)
  | storeDelete (objs : List DBRecord)
  | storeDeleteAll
  | storeQuery (type : String)
deriving DecidableEq

/-- One realm table schema: a name and an optional primary key field name. -/
structure TableSchema where
  name : String
  primaryKey : Option String
deriving DecidableEq

/-- The state of a `Database`: the wrapped realm store (schema plus records in
insertion order, tagged by type), the listener registry (a `Map` iterated in
insertion order; ids come from `generateUUID` in src/utilities.js, which is not
among the provided sources — modelled from the spec as a fresh-identifier
supply, here a counter), and the effect trace. -/
structure DBState where
  schema : List TableSchema
  store : List (String × DBRecord)
  listeners : List Nat
  nextListenerId : Nat
  trace : List TraceEntry
deriving DecidableEq

/-- Errors surfaced by the store or by JavaScript evaluation. -/
inductive DBError where
  | constraintViolation
  | unknownType
  | typeError
deriving DecidableEq

/-- Schema lookup by table name. -/
def findSchema (schema : List TableSchema) (type : String) : Option TableSchema :=
  schema.find? (fun ts => ts.name == type)

/-- Modelled from the spec: the realm store's `objects(type)` view (§6) — all
records of the given type, in insertion order. -/
def objectsOf (store : List (String × DBRecord)) (type : String) : List DBRecord :=
  (store.filter (fun e => e.1 == type)).map (fun e => e.2)

/-- Overwriting one field map entry with the matching entry of `new`, when
`new` has one. -/
def overrideWith (new : DBRecord) (p : String × JSVal) : String × JSVal :=
  match new.fields.find? (fun q => q.1 == p.1) with
  | some q => (p.1, q.2)
  | none => p

/-- Modelled from the spec: realm upsert overwrites the matching fields of the
existing record and keeps the rest (§4.1 `update`, §6 `upsert: true`). -/
def DBRecord.merge (old new : DBRecord) : DBRecord :=
  ⟨old.fields.map (overrideWith new)
    ++ new.fields.filter (fun q => !(old.fields.any (fun p => p.1 == q.1))),
   old.hasDestructor⟩

/-- Modelled from the spec: locate the first record of `type` whose primary key
field equals `v` and overwrite it in place; `none` when no such record
exists. -/
def upsertIn (type pkF : String) (v : JSVal) (props : DBRecord) :
    List (String × DBRecord) → Option DBRecord × List (String × DBRecord)
  | [] => (none, [])
  | e :: rest =>
    if e.1 == type && e.2.get pkF == v then
      (some (e.2.merge props), (e.1, e.2.merge props) :: rest)
    else
      let r := upsertIn type pkF v props rest
      (r.1, e :: r.2)

/-- Modelled from the spec: the realm store's `create(type, properties,
upsert)` (§6): fails on primary-key collision unless `upsert` is set; with
`upsert` it overwrites the existing record; otherwise it appends a new
record. Returns the resulting object and the new store contents. -/
def realmCreate (schema : List TableSchema) (store : List (String × DBRecord))
    (type : String) (props : DBRecord) (upsert : Bool) :
    Except DBError (DBRecord × List (String × DBRecord)) :=
  match findSchema schema type with
  | none => .error .unknownType
  | some ts =>
    match ts.primaryKey with
    | none => .ok (props, store ++ [(type, props)])
    | some pkF =>
      if upsert then
        match upsertIn type pkF (props.get pkF) props store with
        | (some m, store') => .ok (m, store')
        | (none, _) => .ok (props, store ++ [(type, props)])
      else
        if store.any (fun e => e.1 == type && e.2.get pkF == props.get pkF)
        then .error .constraintViolation
        else .ok (props, store ++ [(type, props)])

/-- Modelled from the spec: realm `delete(object)` removes that object; object
identity is modelled as the first store entry holding the same record data. -/
def eraseRecord : List (String × DBRecord) → DBRecord → List (String × DBRecord)
  | [], _ => []
  | e :: rest, obj => if e.2 == obj then rest else e :: eraseRecord rest obj

/-- Modelled from the spec: realm `delete(records)` over a batch (§6). -/
def realmDelete (db : DBState) (objs : List DBRecord) : DBState :=
  { db with store := objs.foldl eraseRecord db.store,
            trace := db.trace ++ [.storeDelete objs] }

/-- The argument of `Database.delete`: either a single realm object (detected
in the source by it having an `objectSchema` function) or an array / realm
list / realm results collection. -/
inductive RecordOrColl where
  | single (r : DBRecord)
  | coll (rs : List DBRecord)
deriving DecidableEq

/-- The `objects` array of `Database.delete`: a single object is wrapped in an
array, a collection is sliced into a plain array. -/
def RecordOrColl.toList : RecordOrColl → List DBRecord
  | .single r => [r]
  | .coll rs => rs

/-- The `{ id: obj.id }` shadow alerted for each deleted record. -/
def shadowOf (r : DBRecord) : DBRecord := ⟨[("id", r.get "id")], false⟩

namespace Database

/-- `new Database(schema)`: fresh realm, empty listener map. -/
def new (schema : List TableSchema) : DBState :=
  ⟨schema, [], [], 0, []⟩

/-- `getIsEmpty()`: the realm's `empty` flag. -/
def getIsEmpty (db : DBState) : Bool := db.store.isEmpty

/-- `addListener(callback)`: mint a fresh id, register it, return the id. -/
def addListener (db : DBState) : Nat × DBState :=
  (db.nextListenerId,
   { db with listeners := db.listeners ++ [db.nextListenerId],
             nextListenerId := db.nextListenerId + 1 })

/-- `removeListener(id)`: drop the map entry; no-op when absent. -/
def removeListener (db : DBState) (id : Nat) : DBState :=
  { db with listeners := db.listeners.erase id }

/-- `alertListeners(...args)`: call every registered listener, in insertion
order, with the given arguments. -/
def alertListeners (db : DBState) (e : ChangeEvent) : DBState :=
  { db with trace := db.trace ++ db.listeners.map (fun l => .notify l e) }

/-- `create(type, properties, ...listenerArgs)`: realm create (no upsert),
then a CREATE notification with the created object. -/
def create (db : DBState) (type : String) (props : DBRecord)
    (ctx : List JSVal) : Except DBError DBRecord × DBState :=
  match realmCreate db.schema db.store type props false with
  | .error err => (.error err, db)
  | .ok (object, store') =>
      (.ok object,
       alertListeners
         { db with store := store',
                   trace := db.trace ++ [.storeCreate type object] }
         ⟨.CREATE, some type, some object, ctx⟩)

/-- `update(type, properties, ...listenerArgs)`: realm create with upsert,
then an UPDATE notification with the resulting object. -/
def update (db : DBState) (type : String) (props : DBRecord)
    (ctx : List JSVal) : Except DBError DBRecord × DBState :=
  match realmCreate db.schema db.store type props true with
  | .error err => (.error err, db)
  | .ok (object, store') =>
      (.ok object,
       alertListeners
         { db with store := store',
                   trace := db.trace ++ [.storeCreate type object] }
         ⟨.UPDATE, some type, some object, ctx⟩)

/-- `objects(type)`. -/
def objects (db : DBState) (type : String) : List DBRecord :=
  objectsOf db.store type

/-- A query `objects(type).filtered('field == $0', v)`, recorded in the trace
as a store query. -/
def queryFiltered (db : DBState) (type field : String) (v : JSVal) :
    List DBRecord × DBState :=
  ((objectsOf db.store type).filter (fun r => r.get field == v),
   { db with trace := db.trace ++ [.storeQuery type] })

/-- `get(type, primaryKey, primaryKeyField)`: null on empty/absent key with no
query; otherwise the first filtered match or null. -/
def get (db : DBState) (type : String) (primaryKey : Option String)
    (primaryKeyField : String) : Option DBRecord × DBState :=
  match primaryKey with
  | none => (none, db)
  | some pk =>
    if pk.length < 1 then (none, db)
    else
      let q := queryFiltered db type primaryKeyField (.str pk)
      (q.1.head?, q.2)

/-- `getOrCreate(type, primaryKey, primaryKeyField, ...listenerArgs)`. -/
def getOrCreate (db : DBState) (type : String) (primaryKey : Option String)
    (primaryKeyField : String) (ctx : List JSVal) :
    Except DBError (Option DBRecord) × DBState :=
  match primaryKey with
  | none => (.ok none, db)
  | some pk =>
    if pk.length < 1 then (.ok none, db)
    else
      match get db type (some pk) primaryKeyField with
      | (some record, db1) => (.ok (some record), db1)
      | (none, db1) =>
        match create db1 type ⟨[(primaryKeyField, .str pk)], false⟩ ctx with
        | (.ok object, db2) => (.ok (some object), db2)
        | (.error err, db2) => (.error err, db2)

/-- The `objects.forEach` loop of `delete`: for each record, build the
`{ id }` shadow, run the duck-typed `destructor` hook when present, then
alert every listener with (DELETE, type, shadow, ...listenerArgs). -/
def deleteLoop (type : String) (ctx : List JSVal) :
    DBState → List DBRecord → DBState
  | db, [] => db
  | db, obj :: rest =>
    let record := shadowOf obj
    let db1 := if obj.hasDestructor
               then { db with trace := db.trace ++ [.destructorCall obj] }
               else db
    let db2 := alertListeners db1 ⟨.DELETE, some type, some record, ctx⟩
    deleteLoop type ctx db2 rest

/-- `delete(type, object, ...listenerArgs)`: normalise to an array, return
early when empty, loop notifying per record, then realm-delete the batch. -/
def delete (db : DBState) (type : String) (object : RecordOrColl)
    (ctx : List JSVal) : DBState :=
  let objects := object.toList
  if objects.length == 0 then db
  else realmDelete (deleteLoop type ctx db objects) objects

/-- `deleteAll(...listenerArgs)`: wipe the realm, then a single WIPE event. -/
def deleteAll (db : DBState) (ctx : List JSVal) : DBState :=
  alertListeners { db with store := [], trace := db.trace ++ [.storeDeleteAll] }
    ⟨.WIPE, none, none, ctx⟩

/-- `save(type, object, ...listenerArgs)`: notification only, no
persistence. -/
def save (db : DBState) (type : String) (object : DBRecord)
    (ctx : List JSVal) : DBState :=
  alertListeners db ⟨.UPDATE, some type, some object, ctx⟩

/-- `write(callback)`: run the callback; on failure roll the store back. -/
def write (db : DBState) (f : DBState → Except DBError α × DBState) :
    Except DBError α × DBState :=
  match f db with
  | (.ok a, db') => (.ok a, db')
  | (.error err, db') => (.error err, { db' with store := db.store })

end Database

/-- The `Setting` table schema exported by src/Settings.js. -/
def SettingSchema : TableSchema := ⟨"Setting", some "key"⟩

namespace Settings

/-- `Settings.set(key, value)`: a `write` scope around
`update('Setting', { key, value: value.toString() })`; `value.toString()` is
evaluated first and throws on nullish values. -/
def set (db : DBState) (key : String) (value : JSVal) :
    Except DBError Unit × DBState :=
  Database.write db (fun st =>
    match value.toStringJS with
    | none => (.error .typeError, st)
    | some s =>
      let r := Database.update st "Setting"
        ⟨[("key", .str key), ("value", .str s)], false⟩ []
      (r.1.map (fun _ => ()), r.2))

/-- `Settings.delete(key)`: a `write` scope around a filtered lookup and, when
a match exists, a `Database.delete` of the first match. -/
def delete (db : DBState) (key : String) : DBState :=
  (Database.write db (fun st =>
    let q := Database.queryFiltered st "Setting" "key" (.str key)
    match q.1 with
    | [] => (Except.ok (), q.2)
    | setting :: _ =>
        (Except.ok (), Database.delete q.2 "Setting" (.single setting) []))).2

/-- `Settings.get(key)`: the first filtered match's `value`, else the empty
string. -/
def get (db : DBState) (key : String) : JSVal × DBState :=
  let q := Database.queryFiltered db "Setting" "key" (.str key)
  match q.1 with
  | r :: _ => (r.get "value", q.2)
  | [] => (.str "", q.2)

end Settings

/-- One external call on the facade; mutating calls run inside a `write`
scope, as the source requires. -/
inductive Op where
  | create (type : String) (props : DBRecord) (ctx : List JSVal)
  | update (type : String) (props : DBRecord) (ctx : List JSVal)
  | save (type : String) (r : DBRecord) (ctx : List JSVal)
  | delete (type : String) (o : RecordOrColl) (ctx : List JSVal)
  | deleteAll (ctx : List JSVal)
  | getOrCreate (type : String) (pk : Option String) (pkField : String)
      (ctx : List JSVal)
  | get (type : String) (pk : Option String) (pkField : String)
  | addListener
  | removeListener (id : Nat)
deriving DecidableEq

/-- Execute one call on the database state. -/
def runOp (db : DBState) : Op → DBState
  | .create t p c => (Database.write db (fun st => Database.create st t p c)).2
  | .update t p c => (Database.write db (fun st => Database.update st t p c)).2
  | .save t r c =>
      (Database.write db (fun st => (Except.ok (), Database.save st t r c))).2
  | .delete t o c =>
      (Database.write db (fun st => (Except.ok (), Database.delete st t o c))).2
  | .deleteAll c =>
      (Database.write db (fun st => (Except.ok (), Database.deleteAll st c))).2
  | .getOrCreate t pk f c =>
      (Database.write db (fun st => Database.getOrCreate st t pk f c)).2
  | .get t pk f => (Database.get db t pk f).2
  | .addListener => (Database.addListener db).2
  | .removeListener id => Database.removeListener db id

/-- Execute a sequence of calls. -/
def run (db : DBState) (ops : List Op) : DBState := ops.foldl runOp db

/-- The trace entries appended between two states. -/
def traceDelta (db db' : DBState) : List TraceEntry :=
  db'.trace.drop db.trace.length

/-- Select the event of a trace entry when it is a notification to `l`. -/
def pickFor (l : Nat) : TraceEntry → Option ChangeEvent
  | .notify l' e => if l' == l then some e else none
  | _ => none

/-- The events delivered to listener `l` between two states, in order. -/
def notifDelta (db db' : DBState) (l : Nat) : List ChangeEvent :=
  (traceDelta db db').filterMap (pickFor l)

/-- The trace entries the `delete` loop appends: for each record, the optional
destructor call followed by one DELETE notification per registered
listener. -/
def deleteNotifs (ls : List Nat) (type : String) (ctx : List JSVal) :
    List DBRecord → List TraceEntry
  | [] => []
  | obj :: rest =>
    (if obj.hasDestructor then [TraceEntry.destructorCall obj] else [])
      ++ ls.map (fun l =>
          TraceEntry.notify l ⟨.DELETE, some type, some (shadowOf obj), ctx⟩)
      ++ deleteNotifs ls type ctx rest

/-- Well-formedness of the listener registry: ids are unique and below the
fresh-id counter. -/
def ListenersWF (db : DBState) : Prop :=
  db.listeners.Nodup ∧ ∀ id ∈ db.listeners, id < db.nextListenerId

/-- The number of CREATE events delivered to listener `l` between two
states. -/
def countCreate (db db' : DBState) (l : Nat) : Nat :=
  ((notifDelta db db' l).filter
    (fun e => e.changeKind == ChangeType.CREATE)).length

/-- The first store entry holding a Setting record with the given key. -/
def settingEntry (db : DBState) (k : String) : Option (String × DBRecord) :=
  db.store.find? (fun e => e.1 == "Setting" && e.2.get "key" == JSVal.str k)

/-- The `User` schema of the repository's README example. -/
def userSchema : TableSchema := ⟨"User", some "id"⟩

/-- A concrete database with a User table and a Setting table. -/
def wDb0 : DBState := Database.new [userSchema, SettingSchema]

/-- The concrete database with one registered listener (id 0). -/
def wDb1 : DBState := (Database.addListener wDb0).2

/-- A concrete User record. -/
def wRec1 : DBRecord := ⟨[("id", JSVal.str "1"), ("username", JSVal.str "a")], false⟩

/-- A second concrete User record. -/
def wRec2 : DBRecord := ⟨[("id", JSVal.str "2")], false⟩

/-- A concrete Setting record; its primary key field is `key`, not `id`. -/
def wSet : DBRecord := ⟨[("key", JSVal.str "k"), ("value", JSVal.str "v")], false⟩

/-- A concrete database holding one User record, with one listener. -/
def wDbU : DBState := ⟨[userSchema, SettingSchema], [("User", wRec1)], [0], 1, []⟩

/-! ## Basic trace and notification lemmas -/

theorem traceDelta_of_append {db db' : DBState} {d : List TraceEntry}
    (h : db'.trace = db.trace ++ d) : traceDelta db db' = d := by
  simp [traceDelta, h, List.drop_left]

@[simp] theorem alertListeners_listeners (db : DBState) (e : ChangeEvent) :
    (Database.alertListeners db e).listeners = db.listeners := rfl

@[simp] theorem alertListeners_store (db : DBState) (e : ChangeEvent) :
    (Database.alertListeners db e).store = db.store := rfl

@[simp] theorem alertListeners_schema (db : DBState) (e : ChangeEvent) :
    (Database.alertListeners db e).schema = db.schema := rfl

@[simp] theorem alertListeners_nextListenerId (db : DBState) (e : ChangeEvent) :
    (Database.alertListeners db e).nextListenerId = db.nextListenerId := rfl

theorem alertListeners_trace (db : DBState) (e : ChangeEvent) :
    (Database.alertListeners db e).trace =
      db.trace ++ db.listeners.map (fun l => .notify l e) := rfl

@[simp] theorem pickFor_storeCreate (l : Nat) (t : String) (r : DBRecord) :
    pickFor l (.storeCreate t r) = none := rfl

@[simp] theorem pickFor_storeDelete (l : Nat) (objs : List DBRecord) :
    pickFor l (.storeDelete objs) = none := rfl

@[simp] theorem pickFor_storeDeleteAll (l : Nat) :
    pickFor l .storeDeleteAll = none := rfl

@[simp] theorem pickFor_storeQuery (l : Nat) (t : String) :
    pickFor l (.storeQuery t) = none := rfl

@[simp] theorem pickFor_destructorCall (l : Nat) (r : DBRecord) :
    pickFor l (.destructorCall r) = none := rfl

theorem pickFor_notify_self (l : Nat) (e : ChangeEvent) :
    pickFor l (.notify l e) = some e := by simp [pickFor]

theorem pickFor_notify_other {l l' : Nat} (h : l' ≠ l) (e : ChangeEvent) :
    pickFor l (.notify l' e) = none := by simp [pickFor, h]

theorem filterMap_pickFor_map_not_mem {l : Nat} {ls : List Nat} (h : l ∉ ls)
    (e : ChangeEvent) :
    (ls.map (fun x => TraceEntry.notify x e)).filterMap (pickFor l) = [] := by
  induction ls with
  | nil => rfl
  | cons a tl ih =>
    have h1 : a ≠ l := fun hh => h (hh ▸ List.mem_cons_self a tl)
    have h2 : l ∉ tl := fun hh => h (List.mem_cons_of_mem a hh)
    simp only [List.map_cons, List.filterMap_cons, pickFor_notify_other h1,
      ih h2]

theorem filterMap_pickFor_map_mem {l : Nat} {ls : List Nat} (hnd : ls.Nodup)
    (h : l ∈ ls) (e : ChangeEvent) :
    (ls.map (fun x => TraceEntry.notify x e)).filterMap (pickFor l) = [e] := by
  induction ls with
  | nil => cases h
  | cons a tl ih =>
    rcases List.mem_cons.mp h with rfl | hmem
    · have hni : l ∉ tl := (List.nodup_cons.mp hnd).1
      simp only [List.map_cons, List.filterMap_cons, pickFor_notify_self,
        filterMap_pickFor_map_not_mem hni]
    · have h1 : a ≠ l := by
        rintro rfl
        exact (List.nodup_cons.mp hnd).1 hmem
      simp only [List.map_cons, List.filterMap_cons, pickFor_notify_other h1,
        ih (List.nodup_cons.mp hnd).2 hmem]

theorem notifDelta_of_append {db db' : DBState} {d : List TraceEntry} (l : Nat)
    (h : db'.trace = db.trace ++ d) :
    notifDelta db db' l = d.filterMap (pickFor l) := by
  rw [notifDelta, traceDelta_of_append h]

/-! ## Write-scope lemmas -/

theorem write_pure (db : DBState) (g : DBState → DBState) :
    Database.write db (fun st => (Except.ok (), g st)) = (.ok (), g db) := rfl

theorem write_ok {α} {db st : DBState} {f : DBState → Except DBError α × DBState}
    {a : α} (h : Database.write db f = (.ok a, st)) : f db = (.ok a, st) := by
  unfold Database.write at h
  rcases hf : f db with ⟨res, st'⟩
  rw [hf] at h
  cases res with
  | ok b =>
    simp only [Prod.mk.injEq, Except.ok.injEq] at h
    obtain ⟨rfl, rfl⟩ := h
    rfl
  | error e => simp at h

/-! ## State-component lemmas for each operation -/

theorem create_regs (db : DBState) (t : String) (p : DBRecord)
    (c : List JSVal) :
    (Database.create db t p c).2.listeners = db.listeners ∧
    (Database.create db t p c).2.nextListenerId = db.nextListenerId ∧
    (Database.create db t p c).2.schema = db.schema := by
  rcases h : realmCreate db.schema db.store t p false with e | ⟨obj, store'⟩ <;>
    simp [Database.create, h]

theorem update_regs (db : DBState) (t : String) (p : DBRecord)
    (c : List JSVal) :
    (Database.update db t p c).2.listeners = db.listeners ∧
    (Database.update db t p c).2.nextListenerId = db.nextListenerId ∧
    (Database.update db t p c).2.schema = db.schema := by
  rcases h : realmCreate db.schema db.store t p true with e | ⟨obj, store'⟩ <;>
    simp [Database.update, h]

theorem queryFiltered_regs (db : DBState) (t f : String) (v : JSVal) :
    (Database.queryFiltered db t f v).2.listeners = db.listeners ∧
    (Database.queryFiltered db t f v).2.nextListenerId = db.nextListenerId ∧
    (Database.queryFiltered db t f v).2.schema = db.schema ∧
    (Database.queryFiltered db t f v).2.store = db.store := by
  simp [Database.queryFiltered]

theorem get_regs (db : DBState) (t : String) (pk : Option String)
    (f : String) :
    (Database.get db t pk f).2.listeners = db.listeners ∧
    (Database.get db t pk f).2.nextListenerId = db.nextListenerId ∧
    (Database.get db t pk f).2.schema = db.schema ∧
    (Database.get db t pk f).2.store = db.store := by
  cases pk with
  | none => simp [Database.get]
  | some s =>
    by_cases h : s.length < 1 <;> simp [Database.get, h, Database.queryFiltered]

theorem getOrCreate_regs (db : DBState) (t : String) (pk : Option String)
    (f : String) (c : List JSVal) :
    (Database.getOrCreate db t pk f c).2.listeners = db.listeners ∧
    (Database.getOrCreate db t pk f c).2.nextListenerId = db.nextListenerId ∧
    (Database.getOrCreate db t pk f c).2.schema = db.schema := by
  cases pk with
  | none => simp [Database.getOrCreate]
  | some s =>
    by_cases h : s.length < 1
    · simp [Database.getOrCreate, h]
    · have hg := get_regs db t (some s) f
      rcases hget : Database.get db t (some s) f with ⟨res, db1⟩
      rw [hget] at hg
      dsimp only at hg
      cases res with
      | some r => simp [Database.getOrCreate, h, hget, hg.1, hg.2.1, hg.2.2.1]
      | none =>
        have hc := create_regs db1 t ⟨[(f, .str s)], false⟩ c
        rcases hcr : Database.create db1 t ⟨[(f, .str s)], false⟩ c
          with ⟨cres, db2⟩
        rw [hcr] at hc
        dsimp only at hc
        cases cres <;>
          simp [Database.getOrCreate, h, hget, hcr, hc.1, hc.2.1, hc.2.2,
            hg.1, hg.2.1, hg.2.2.1]

theorem deleteLoop_state (t : String) (c : List JSVal) (objs : List DBRecord) :
    ∀ db : DBState,
      (Database.deleteLoop t c db objs).listeners = db.listeners ∧
      (Database.deleteLoop t c db objs).store = db.store ∧
      (Database.deleteLoop t c db objs).schema = db.schema ∧
      (Database.deleteLoop t c db objs).nextListenerId = db.nextListenerId ∧
      (Database.deleteLoop t c db objs).trace =
        db.trace ++ deleteNotifs db.listeners t c objs := by
  induction objs with
  | nil => intro db; simp [Database.deleteLoop, deleteNotifs]
  | cons obj rest ih =>
    intro db
    by_cases hd : obj.hasDestructor = true <;>
    · simp only [Database.deleteLoop, hd, if_true, if_false,
        Bool.false_eq_true, reduceIte]
      refine (ih _).imp (fun h => by simpa using h) (fun h => h.imp
        (fun h => by simpa using h) (fun h => h.imp
        (fun h => by simpa using h) (fun h => h.imp
        (fun h => by simpa using h) (fun h => ?_))))
      rw [h]
      simp [Database.alertListeners, deleteNotifs, hd, List.append_assoc]

theorem delete_empty (db : DBState) (t : String) (o : RecordOrColl)
    (c : List JSVal) (h : o.toList = []) : Database.delete db t o c = db := by
  simp [Database.delete, h]

theorem delete_state (db : DBState) (t : String) (o : RecordOrColl)
    (c : List JSVal) (h : o.toList ≠ []) :
    (Database.delete db t o c).listeners = db.listeners ∧
    (Database.delete db t o c).nextListenerId = db.nextListenerId ∧
    (Database.delete db t o c).schema = db.schema ∧
    (Database.delete db t o c).store = o.toList.foldl eraseRecord db.store ∧
    (Database.delete db t o c).trace =
      db.trace ++ deleteNotifs db.listeners t c o.toList
        ++ [.storeDelete o.toList] := by
  have hlen : (o.toList.length == 0) = false := by
    simp [List.length_eq_zero, h]
  obtain ⟨h1, h2, h3, h4, h5⟩ := deleteLoop_state t c o.toList db
  simp only [Database.delete, hlen, Bool.false_eq_true, reduceIte, realmDelete]
  exact ⟨h1, h4, h3, by rw [h2], by rw [h5]⟩

theorem delete_regs (db : DBState) (t : String) (o : RecordOrColl)
    (c : List JSVal) :
    (Database.delete db t o c).listeners = db.listeners ∧
    (Database.delete db t o c).nextListenerId = db.nextListenerId := by
  by_cases h : o.toList = []
  · rw [delete_empty db t o c h]; exact ⟨rfl, rfl⟩
  · exact ⟨(delete_state db t o c h).1, (delete_state db t o c h).2.1⟩

theorem deleteAll_state (db : DBState) (c : List JSVal) :
    (Database.deleteAll db c).listeners = db.listeners ∧
    (Database.deleteAll db c).nextListenerId = db.nextListenerId ∧
    (Database.deleteAll db c).schema = db.schema ∧
    (Database.deleteAll db c).store = [] ∧
    (Database.deleteAll db c).trace =
      db.trace ++ TraceEntry.storeDeleteAll ::
        db.listeners.map (fun l => .notify l ⟨.WIPE, none, none, c⟩) := by
  simp [Database.deleteAll, Database.alertListeners]

theorem save_state (db : DBState) (t : String) (r : DBRecord)
    (c : List JSVal) :
    (Database.save db t r c).listeners = db.listeners ∧
    (Database.save db t r c).nextListenerId = db.nextListenerId ∧
    (Database.save db t r c).schema = db.schema ∧
    (Database.save db t r c).store = db.store ∧
    (Database.save db t r c).trace =
      db.trace ++ db.listeners.map
        (fun l => .notify l ⟨.UPDATE, some t, some r, c⟩) := by
  simp [Database.save, Database.alertListeners]

/-! ## Well-formedness of the listener registry -/

theorem wf_new (schema : List TableSchema) :
    ListenersWF (Database.new schema) :=
  ⟨List.nodup_nil, by intro id h; cases h⟩

theorem wf_of_regs {db db' : DBState} (h : ListenersWF db)
    (hl : db'.listeners = db.listeners)
    (hn : db'.nextListenerId = db.nextListenerId) : ListenersWF db' := by
  unfold ListenersWF at h ⊢
  rw [hl, hn]
  exact h

theorem wf_addListener {db : DBState} (h : ListenersWF db) :
    ListenersWF (Database.addListener db).2 := by
  obtain ⟨hnd, hlt⟩ := h
  unfold ListenersWF
  simp only [Database.addListener]
  constructor
  · refine List.Nodup.append hnd (List.nodup_singleton _) ?_
    intro a ha hb
    simp only [List.mem_singleton] at hb
    subst hb
    exact absurd (hlt _ ha) (lt_irrefl _)
  · intro id hid
    rcases List.mem_append.mp hid with hid | hid
    · exact Nat.lt_succ_of_lt (hlt _ hid)
    · simp only [List.mem_singleton] at hid
      subst hid
      exact Nat.lt_succ_self _

theorem wf_removeListener {db : DBState} (id : Nat) (h : ListenersWF db) :
    ListenersWF (Database.removeListener db id) := by
  obtain ⟨hnd, hlt⟩ := h
  exact ⟨hnd.erase id, fun x hx => hlt x (List.mem_of_mem_erase hx)⟩

theorem write_regs {α} (db : DBState)
    (f : DBState → Except DBError α × DBState)
    (hl : (f db).2.listeners = db.listeners)
    (hn : (f db).2.nextListenerId = db.nextListenerId) :
    (Database.write db f).2.listeners = db.listeners ∧
    (Database.write db f).2.nextListenerId = db.nextListenerId := by
  unfold Database.write
  rcases hf : f db with ⟨res, st⟩
  rw [hf] at hl hn
  dsimp only at hl hn
  cases res <;> simp [hl, hn]

theorem wf_runOp {db : DBState} (op : Op) (h : ListenersWF db) :
    ListenersWF (runOp db op) := by
  cases op with
  | create t p c =>
    have hr := create_regs db t p c
    have hw := write_regs db (fun st => Database.create st t p c) hr.1 hr.2.1
    exact wf_of_regs h hw.1 hw.2
  | update t p c =>
    have hr := update_regs db t p c
    have hw := write_regs db (fun st => Database.update st t p c) hr.1 hr.2.1
    exact wf_of_regs h hw.1 hw.2
  | save t r c =>
    have hr := save_state db t r c
    have hw := write_regs db
      (fun st => (Except.ok (), Database.save st t r c)) hr.1 hr.2.1
    exact wf_of_regs h hw.1 hw.2
  | delete t o c =>
    have hr := delete_regs db t o c
    have hw := write_regs db
      (fun st => (Except.ok (), Database.delete st t o c)) hr.1 hr.2
    exact wf_of_regs h hw.1 hw.2
  | deleteAll c =>
    have hr := deleteAll_state db c
    have hw := write_regs db
      (fun st => (Except.ok (), Database.deleteAll st c)) hr.1 hr.2.1
    exact wf_of_regs h hw.1 hw.2
  | getOrCreate t pk f c =>
    have hr := getOrCreate_regs db t pk f c
    have hw := write_regs db
      (fun st => Database.getOrCreate st t pk f c) hr.1 hr.2.1
    exact wf_of_regs h hw.1 hw.2
  | get t pk f =>
    have hr := get_regs db t pk f
    exact wf_of_regs h hr.1 hr.2.1
  | addListener => exact wf_addListener h
  | removeListener id => exact wf_removeListener id h

theorem wf_run (ops : List Op) :
    ∀ db : DBState, ListenersWF db → ListenersWF (run db ops) := by
  induction ops with
  | nil => intro db h; exact h
  | cons op rest ih => intro db h; exact ih _ (wf_runOp op h)

/-! ## Notification extraction from delete traces -/

theorem filterMap_pickFor_deleteNotifs {l : Nat} {ls : List Nat}
    (hnd : ls.Nodup) (h : l ∈ ls) (t : String) (c : List JSVal)
    (objs : List DBRecord) :
    (deleteNotifs ls t c objs).filterMap (pickFor l) =
      objs.map (fun obj =>
        (⟨.DELETE, some t, some (shadowOf obj), c⟩ : ChangeEvent)) := by
  induction objs with
  | nil => rfl
  | cons obj rest ih =>
    simp only [deleteNotifs, List.filterMap_append, ih, List.map_cons]
    by_cases hd : obj.hasDestructor = true <;>
      simp [hd, filterMap_pickFor_map_mem hnd h]

theorem destructorCall_mem_deleteNotifs (ls : List Nat) (t : String)
    (c : List JSVal) (objs : List DBRecord) (r : DBRecord) :
    TraceEntry.destructorCall r ∈ deleteNotifs ls t c objs ↔
      r ∈ objs ∧ r.hasDestructor = true := by
  induction objs with
  | nil => simp [deleteNotifs]
  | cons obj rest ih =>
    simp only [deleteNotifs, List.mem_append, ih]
    constructor
    · rintro ((hm | hm) | hm)
      · by_cases hd : obj.hasDestructor = true
        · rw [if_pos hd] at hm
          simp only [List.mem_singleton, TraceEntry.destructorCall.injEq] at hm
          subst hm
          exact ⟨List.mem_cons_self _ _, hd⟩
        · rw [if_neg hd] at hm
          cases hm
      · exfalso
        rcases List.mem_map.mp hm with ⟨x, _, hx⟩
        cases hx
      · exact ⟨List.mem_cons_of_mem _ hm.1, hm.2⟩
    · rintro ⟨hm, hd⟩
      rcases List.mem_cons.mp hm with rfl | hm
      · exact Or.inl (Or.inl (by simp [hd]))
      · exact Or.inr ⟨hm, hd⟩

theorem notify_mem_deleteNotifs {ls : List Nat} {t : String} {c : List JSVal}
    {objs : List DBRecord} {l : Nat} {e : ChangeEvent}
    (h : TraceEntry.notify l e ∈ deleteNotifs ls t c objs) :
    ∃ obj ∈ objs, e = ⟨.DELETE, some t, some (shadowOf obj), c⟩ := by
  induction objs with
  | nil => cases h
  | cons obj rest ih =>
    simp only [deleteNotifs, List.mem_append] at h
    rcases h with (hm | hm) | hm
    · exfalso
      by_cases hd : obj.hasDestructor = true
      · rw [if_pos hd] at hm
        simp only [List.mem_singleton] at hm
        cases hm
      · rw [if_neg hd] at hm
        cases hm
    · rcases List.mem_map.mp hm with ⟨x, _, hx⟩
      obtain ⟨rfl, he⟩ : x = l ∧ TraceEntry.notify l e = .notify x _ := by
        cases hx; exact ⟨rfl, rfl⟩
      cases hx
      exact ⟨obj, List.mem_cons_self _ _, rfl⟩
    · rcases ih hm with ⟨x, hx, he⟩
      exact ⟨x, List.mem_cons_of_mem _ hx, he⟩

/-! ## Claim theorems: save, deleteAll, get, delete, shadow -/

/-- C7: `save(type, record, ...context)` leaves the underlying store
completely unchanged — the trace delta consists of the UPDATE notifications
only, with no store operation — and delivers an (UPDATE, type, record,
...context) notification to every registered listener exactly once. -/
theorem C7_save_frame (db : DBState) (type : String) (r : DBRecord)
    (ctx : List JSVal) :
    (Database.save db type r ctx).store = db.store ∧
    (Database.save db type r ctx).listeners = db.listeners ∧
    traceDelta db (Database.save db type r ctx) =
      db.listeners.map
        (fun l => .notify l ⟨.UPDATE, some type, some r, ctx⟩) ∧
    (∀ l, db.listeners.Nodup → l ∈ db.listeners →
      notifDelta db (Database.save db type r ctx) l =
        [⟨.UPDATE, some type, some r, ctx⟩]) := by
  obtain ⟨l1, n1, s1, st1, tr1⟩ := save_state db type r ctx
  refine ⟨st1, l1, traceDelta_of_append tr1, ?_⟩
  intro l hnd hl
  rw [notifDelta_of_append l tr1, filterMap_pickFor_map_mem hnd hl]

theorem C7_save_frame_witness :
    wDb1.listeners.Nodup ∧ 0 ∈ wDb1.listeners ∧
    notifDelta wDb1 (Database.save wDb1 "User" wRec1 []) 0 =
      [⟨.UPDATE, some "User", some wRec1, []⟩] :=
  ⟨by decide, by decide,
    (C7_save_frame wDb1 "User" wRec1 []).2.2.2 0 (by decide) (by decide)⟩

/-- C3: `deleteAll(...context)` first delegates the wipe to the store and
then delivers exactly one (WIPE, ...context) notification — carrying no
recordType and no record — to each registered listener; afterwards
`isEmpty()` is true. -/
theorem C3_deleteAll (db : DBState) (ctx : List JSVal) :
    Database.getIsEmpty (Database.deleteAll db ctx) = true ∧
    traceDelta db (Database.deleteAll db ctx) =
      TraceEntry.storeDeleteAll ::
        db.listeners.map (fun l => .notify l ⟨.WIPE, none, none, ctx⟩) ∧
    (∀ l, db.listeners.Nodup → l ∈ db.listeners →
      notifDelta db (Database.deleteAll db ctx) l =
        [⟨.WIPE, none, none, ctx⟩]) := by
  obtain ⟨l1, n1, s1, st1, tr1⟩ := deleteAll_state db ctx
  refine ⟨by simp [Database.getIsEmpty, st1], traceDelta_of_append tr1, ?_⟩
  intro l hnd hl
  rw [notifDelta_of_append l tr1]
  simp only [List.filterMap_cons, pickFor_storeDeleteAll]
  exact filterMap_pickFor_map_mem hnd hl _

theorem C3_deleteAll_witness :
    wDb1.listeners.Nodup ∧ 0 ∈ wDb1.listeners ∧
    notifDelta wDb1 (Database.deleteAll wDb1 []) 0 =
      [⟨.WIPE, none, none, []⟩] :=
  ⟨by decide, by decide, (C3_deleteAll wDb1 []).2.2 0 (by decide) (by decide)⟩

/-- C6: `get(type, primaryKey, primaryKeyField)` returns null with no store
interaction at all when the primary key is absent (null) or empty, and
otherwise issues exactly one store query and returns the first record
matching `primaryKeyField == primaryKey`, or null when none matches. -/
theorem C6_get (db : DBState) (type pkField : String) :
    Database.get db type none pkField = (none, db) ∧
    Database.get db type (some "") pkField = (none, db) ∧
    (∀ pk : String, pk ≠ "" →
      (Database.get db type (some pk) pkField).2 =
        { db with trace := db.trace ++ [.storeQuery type] } ∧
      (Database.get db type (some pk) pkField).1 =
        ((objectsOf db.store type).filter
          (fun r => r.get pkField == JSVal.str pk)).head? ∧
      ((Database.get db type (some pk) pkField).1 = none ↔
        ∀ r ∈ objectsOf db.store type, r.get pkField ≠ JSVal.str pk)) := by
  refine ⟨rfl, by simp [Database.get], ?_⟩
  intro pk hpk
  have hlen : ¬pk.length < 1 := by
    have h0 : pk.length ≠ 0 := by
      intro h0
      exact hpk (String.ext (List.length_eq_zero.mp h0))
    omega
  refine ⟨by simp [Database.get, hlen, Database.queryFiltered],
    by simp [Database.get, hlen, Database.queryFiltered], ?_⟩
  simp [Database.get, hlen, Database.queryFiltered, List.head?_eq_none_iff,
    List.filter_eq_nil_iff]

theorem C6_get_witness :
    ("1" : String) ≠ "" ∧
    (Database.get wDb1 "User" (some "1") "id").1 =
      ((objectsOf wDb1.store "User").filter
        (fun r => r.get "id" == JSVal.str "1")).head? :=
  ⟨by decide, ((C6_get wDb1 "User" "id").2.2 "1" (by decide)).2.1⟩

/-- The per-record DELETE notifications a nonempty delete delivers to a
registered listener. -/
theorem delete_notifDelta {db : DBState} (type : String) (ctx : List JSVal)
    (o : RecordOrColl) (ho : o.toList ≠ []) {l : Nat}
    (hnd : db.listeners.Nodup) (hl : l ∈ db.listeners) :
    notifDelta db (Database.delete db type o ctx) l =
      o.toList.map (fun obj =>
        (⟨.DELETE, some type, some (shadowOf obj), ctx⟩ : ChangeEvent)) := by
  obtain ⟨l1, n1, s1, st1, tr1⟩ := delete_state db type o ctx ho
  have htr : traceDelta db (Database.delete db type o ctx) =
      deleteNotifs db.listeners type ctx o.toList
        ++ [.storeDelete o.toList] := by
    apply traceDelta_of_append
    rw [tr1, List.append_assoc]
  rw [notifDelta, htr, List.filterMap_append,
    filterMap_pickFor_deleteNotifs hnd hl]
  simp

/-- C2: `delete(type, objectOrList, ...context)` is a no-op on an empty
collection; otherwise, for each record in order, the destructor hook runs
exactly when the record exposes one, and a (DELETE, type, shadow, ...context)
notification with the minimal `{ id }` shadow is delivered to every
registered listener, all of this before the store's batch delete, which comes
last; the shadow holds only the id field and yields undefined for every other
field. -/
theorem C2_delete (db : DBState) (type : String) (ctx : List JSVal) :
    Database.delete db type (.coll []) ctx = db ∧
    (∀ o : RecordOrColl, o.toList ≠ [] →
      (Database.delete db type o ctx).store =
        o.toList.foldl eraseRecord db.store ∧
      traceDelta db (Database.delete db type o ctx) =
        deleteNotifs db.listeners type ctx o.toList
          ++ [.storeDelete o.toList] ∧
      (∀ l, db.listeners.Nodup → l ∈ db.listeners →
        notifDelta db (Database.delete db type o ctx) l =
          o.toList.map (fun obj =>
            ⟨.DELETE, some type, some (shadowOf obj), ctx⟩)) ∧
      (∀ r : DBRecord,
        TraceEntry.destructorCall r ∈
            traceDelta db (Database.delete db type o ctx) ↔
          r ∈ o.toList ∧ r.hasDestructor = true)) ∧
    (∀ r : DBRecord, (shadowOf r).fields = [("id", r.get "id")] ∧
      ∀ f, f ≠ "id" → (shadowOf r).get f = .undefined) := by
  refine ⟨delete_empty db type (.coll []) ctx rfl, ?_, ?_⟩
  · intro o ho
    obtain ⟨l1, n1, s1, st1, tr1⟩ := delete_state db type o ctx ho
    have htr : traceDelta db (Database.delete db type o ctx) =
        deleteNotifs db.listeners type ctx o.toList
          ++ [.storeDelete o.toList] := by
      apply traceDelta_of_append
      rw [tr1, List.append_assoc]
    refine ⟨st1, htr, ?_, ?_⟩
    · intro l hnd hl
      exact delete_notifDelta type ctx o ho hnd hl
    · intro r
      rw [htr]
      simp only [List.mem_append, List.mem_singleton]
      rw [destructorCall_mem_deleteNotifs]
      simp
  · intro r
    refine ⟨rfl, ?_⟩
    intro f hf
    have : ("id" == f) = false := by
      simp only [beq_eq_false_iff_ne, ne_eq]
      exact fun hh => hf hh.symm
    simp [shadowOf, DBRecord.get, List.find?, this]

theorem C2_delete_witness :
    (RecordOrColl.coll [wRec1, wRec2]).toList ≠ [] ∧
    wDb1.listeners.Nodup ∧ 0 ∈ wDb1.listeners ∧
    notifDelta wDb1
      (Database.delete wDb1 "User" (.coll [wRec1, wRec2]) []) 0 =
      [⟨.DELETE, some "User", some (shadowOf wRec1), []⟩,
       ⟨.DELETE, some "User", some (shadowOf wRec2), []⟩] :=
  ⟨by decide, by decide, by decide,
    ((C2_delete wDb1 "User" []).2.1 (.coll [wRec1, wRec2])
      (by decide)).2.2.1 0 (by decide) (by decide)⟩

/-- C9: the delete shadow is built with the literal field name `id`; for a
record that has no `id` field (such as a Setting record, keyed by `key`),
every DELETE notification of the call carries the shadow `{ id: undefined }`,
whose lookup yields undefined for every field — in particular the record's
actual primary key value never appears in the notification under its
configured field name. -/
theorem C9_shadow (db : DBState) (type : String) (ctx : List JSVal)
    (r : DBRecord) (hid : ∀ p ∈ r.fields, p.1 ≠ "id") :
    shadowOf r = ⟨[("id", JSVal.undefined)], false⟩ ∧
    (∀ f, (⟨[("id", JSVal.undefined)], false⟩ : DBRecord).get f =
      JSVal.undefined) ∧
    (∀ l e, TraceEntry.notify l e ∈
        traceDelta db (Database.delete db type (.single r) ctx) →
      e.record = some ⟨[("id", JSVal.undefined)], false⟩) := by
  have hrid : r.get "id" = JSVal.undefined := by
    unfold DBRecord.get
    have : r.fields.find? (fun p => p.1 == "id") = none := by
      rw [List.find?_eq_none]
      intro p hp
      simp [hid p hp]
    rw [this]
  have hsh : shadowOf r = ⟨[("id", JSVal.undefined)], false⟩ := by
    rw [shadowOf, hrid]
  have hget : ∀ f, (⟨[("id", JSVal.undefined)], false⟩ : DBRecord).get f =
      JSVal.undefined := by
    intro f
    by_cases h : ("id" == f) = true <;> simp [DBRecord.get, List.find?, h]
  refine ⟨hsh, hget, ?_⟩
  intro l e hmem
  have ho : (RecordOrColl.single r).toList ≠ [] := by simp [RecordOrColl.toList]
  obtain ⟨-, -, -, -, tr1⟩ := delete_state db type (.single r) ctx ho
  have htr : traceDelta db (Database.delete db type (.single r) ctx) =
      deleteNotifs db.listeners type ctx [r] ++ [.storeDelete [r]] := by
    apply traceDelta_of_append
    rw [tr1]
    simp [RecordOrColl.toList, List.append_assoc]
  rw [htr] at hmem
  rcases List.mem_append.mp hmem with hmem | hmem
  · rcases notify_mem_deleteNotifs hmem with ⟨obj, hobj, rfl⟩
    simp only [List.mem_singleton] at hobj
    subst hobj
    simp [hsh]
  · simp only [List.mem_singleton] at hmem
    cases hmem

theorem C9_shadow_witness :
    (∀ p ∈ wSet.fields, p.1 ≠ "id") ∧
    shadowOf wSet = ⟨[("id", JSVal.undefined)], false⟩ :=
  ⟨by decide, (C9_shadow wDb1 "Setting" [] wSet (by decide)).1⟩

/-! ## Claim theorems: create and per-mutation notification -/

theorem create_ok_notifDelta {db st : DBState} {type : String}
    {props rec : DBRecord} {ctx : List JSVal}
    (h : Database.create db type props ctx = (.ok rec, st))
    {l : Nat} (hnd : db.listeners.Nodup) (hl : l ∈ db.listeners) :
    notifDelta db st l = [⟨.CREATE, some type, some rec, ctx⟩] := by
  unfold Database.create at h
  rcases hr : realmCreate db.schema db.store type props false
    with e | ⟨obj, store'⟩ <;> rw [hr] at h
  · simp at h
  · simp only [Prod.mk.injEq, Except.ok.injEq] at h
    obtain ⟨rfl, rfl⟩ := h
    have htr : (Database.alertListeners
        { db with store := store',
                  trace := db.trace ++ [.storeCreate type obj] }
        ⟨.CREATE, some type, some obj, ctx⟩).trace =
        db.trace ++ (TraceEntry.storeCreate type obj ::
          db.listeners.map
            (fun x => .notify x ⟨.CREATE, some type, some obj, ctx⟩)) := by
      rw [alertListeners_trace]
      simp
    rw [notifDelta_of_append l htr]
    simp only [List.filterMap_cons, pickFor_storeCreate]
    exact filterMap_pickFor_map_mem hnd hl _

theorem update_ok_notifDelta {db st : DBState} {type : String}
    {props rec : DBRecord} {ctx : List JSVal}
    (h : Database.update db type props ctx = (.ok rec, st))
    {l : Nat} (hnd : db.listeners.Nodup) (hl : l ∈ db.listeners) :
    notifDelta db st l = [⟨.UPDATE, some type, some rec, ctx⟩] := by
  unfold Database.update at h
  rcases hr : realmCreate db.schema db.store type props true
    with e | ⟨obj, store'⟩ <;> rw [hr] at h
  · simp at h
  · simp only [Prod.mk.injEq, Except.ok.injEq] at h
    obtain ⟨rfl, rfl⟩ := h
    have htr : (Database.alertListeners
        { db with store := store',
                  trace := db.trace ++ [.storeCreate type obj] }
        ⟨.UPDATE, some type, some obj, ctx⟩).trace =
        db.trace ++ (TraceEntry.storeCreate type obj ::
          db.listeners.map
            (fun x => .notify x ⟨.UPDATE, some type, some obj, ctx⟩)) := by
      rw [alertListeners_trace]
      simp
    rw [notifDelta_of_append l htr]
    simp only [List.filterMap_cons, pickFor_storeCreate]
    exact filterMap_pickFor_map_mem hnd hl _

/-- C4: `create` fails with the store's ConstraintViolation, propagated
unchanged and leaving the whole state (store, trace, listeners) untouched —
so no listener is notified — when a record of `type` with the same primary
key value already exists; otherwise it appends the new record and delivers
exactly one (CREATE, type, createdRecord, ...context) notification to each
registered listener and returns the created record. -/
theorem C4_create (db : DBState) (type : String) (props : DBRecord)
    (ctx : List JSVal) (ts : TableSchema) (pkF : String)
    (hts : findSchema db.schema type = some ts)
    (hpk : ts.primaryKey = some pkF) :
    ((∃ e ∈ db.store, e.1 = type ∧ e.2.get pkF = props.get pkF) →
      Database.create db type props ctx = (.error .constraintViolation, db)) ∧
    ((∀ e ∈ db.store, ¬(e.1 = type ∧ e.2.get pkF = props.get pkF)) →
      Database.create db type props ctx =
        (.ok props,
         Database.alertListeners
           { db with store := db.store ++ [(type, props)],
                     trace := db.trace ++ [.storeCreate type props] }
           ⟨.CREATE, some type, some props, ctx⟩) ∧
      (∀ l, db.listeners.Nodup → l ∈ db.listeners →
        notifDelta db (Database.create db type props ctx).2 l =
          [⟨.CREATE, some type, some props, ctx⟩])) := by
  constructor
  · intro hclash
    have hany : db.store.any
        (fun e => e.1 == type && e.2.get pkF == props.get pkF) = true := by
      rw [List.any_eq_true]
      rcases hclash with ⟨e, he, h1, h2⟩
      exact ⟨e, he, by simp [h1, h2]⟩
    simp [Database.create, realmCreate, hts, hpk, hany]
  · intro hnoclash
    have hany : db.store.any
        (fun e => e.1 == type && e.2.get pkF == props.get pkF) = false := by
      rw [Bool.eq_false_iff]
      intro hc
      rcases List.any_eq_true.mp hc with ⟨e, he, hp⟩
      simp only [Bool.and_eq_true, beq_iff_eq] at hp
      exact hnoclash e he hp
    have heq : Database.create db type props ctx =
        (.ok props,
         Database.alertListeners
           { db with store := db.store ++ [(type, props)],
                     trace := db.trace ++ [.storeCreate type props] }
           ⟨.CREATE, some type, some props, ctx⟩) := by
      simp [Database.create, realmCreate, hts, hpk, hany]
    refine ⟨heq, ?_⟩
    intro l hnd hl
    have h2 : Database.create db type props ctx =
        (.ok props, (Database.create db type props ctx).2) := by
      rw [heq]
    exact create_ok_notifDelta h2 hnd hl

theorem C4_create_witness :
    findSchema wDbU.schema "User" = some userSchema ∧
    userSchema.primaryKey = some "id" ∧
    (∃ e ∈ wDbU.store, e.1 = "User" ∧ e.2.get "id" = wRec1.get "id") ∧
    Database.create wDbU "User" wRec1 [] =
      (.error .constraintViolation, wDbU) :=
  ⟨by decide, by decide, by decide,
    (C4_create wDbU "User" wRec1 [] userSchema "id"
      (by decide) (by decide)).1 (by decide)⟩

/-- C1 as stated is false on the code: inside a write scope, one `delete`
call given a collection of two records invokes the (single) registered
listener twice — once per record — not exactly once. -/
theorem C1_counterexample :
    (notifDelta wDb1
      (Database.write wDb1 (fun st =>
        (Except.ok (), Database.delete st "User" (.coll [wRec1, wRec2]) []))).2
      0).length = 2 ∧
    (notifDelta wDb1
      (Database.write wDb1 (fun st =>
        (Except.ok (), Database.delete st "User" (.coll [wRec1, wRec2]) []))).2
      0).length ≠ 1 := by
  constructor
  · decide
  · decide

/-- C1 (amended): on every state reachable by a sequence of facade calls from
a fresh database, and for every currently registered listener: a successful
`create` or `update` call inside a write scope delivers exactly one
notification to that listener, with the matching changeKind and the call's
type; a `delete` call inside a write scope delivers exactly one DELETE
notification with the call's type per record of its argument — none for an
empty collection, several for a multi-record collection. -/
theorem C1_per_mutation (schema : List TableSchema) (ops : List Op)
    (db : DBState) (hdb : db = run (Database.new schema) ops)
    (l : Nat) (hl : l ∈ db.listeners) :
    (∀ type props ctx rec st,
      Database.write db (fun s => Database.create s type props ctx) =
        (.ok rec, st) →
      notifDelta db st l = [⟨.CREATE, some type, some rec, ctx⟩]) ∧
    (∀ type props ctx rec st,
      Database.write db (fun s => Database.update s type props ctx) =
        (.ok rec, st) →
      notifDelta db st l = [⟨.UPDATE, some type, some rec, ctx⟩]) ∧
    (∀ type (o : RecordOrColl) ctx,
      notifDelta db
        (Database.write db (fun s =>
          (Except.ok (), Database.delete s type o ctx))).2 l =
        o.toList.map (fun obj =>
          ⟨.DELETE, some type, some (shadowOf obj), ctx⟩)) := by
  have hwf : ListenersWF db := hdb ▸ wf_run ops _ (wf_new schema)
  have hnd : db.listeners.Nodup := hwf.1
  refine ⟨?_, ?_, ?_⟩
  · intro type props ctx rec st h
    exact create_ok_notifDelta (write_ok h) hnd hl
  · intro type props ctx rec st h
    exact update_ok_notifDelta (write_ok h) hnd hl
  · intro type o ctx
    rw [write_pure]
    by_cases ho : o.toList = []
    · rw [delete_empty db type o ctx ho, ho]
      simp [notifDelta, traceDelta]
    · exact delete_notifDelta type ctx o ho hnd hl

theorem C1_per_mutation_witness :
    wDb1 = run (Database.new [userSchema, SettingSchema]) [Op.addListener] ∧
    0 ∈ wDb1.listeners ∧
    notifDelta wDb1
      (Database.write wDb1 (fun s =>
        (Except.ok (), Database.delete s "User" (.single wRec1) []))).2 0 =
      [⟨.DELETE, some "User", some (shadowOf wRec1), []⟩] :=
  ⟨by decide, by decide,
    (C1_per_mutation [userSchema, SettingSchema] [Op.addListener] wDb1
      (by decide) 0 (by decide)).2.2 "User" (.single wRec1) []⟩

/-! ## getOrCreate lemmas -/

theorem realmCreate_false_ok {schema : List TableSchema}
    {store : List (String × DBRecord)} {type : String} {props obj : DBRecord}
    {store' : List (String × DBRecord)}
    (h : realmCreate schema store type props false = .ok (obj, store')) :
    obj = props ∧ store' = store ++ [(type, props)] := by
  unfold realmCreate at h
  split at h
  · cases h
  · split at h
    · simp only [Except.ok.injEq, Prod.mk.injEq] at h
      exact ⟨h.1.symm, h.2.symm⟩
    · simp only [Bool.false_eq_true, reduceIte] at h
      split at h
      · cases h
      · simp only [Except.ok.injEq, Prod.mk.injEq] at h
        exact ⟨h.1.symm, h.2.symm⟩

theorem objectsOf_append (s : List (String × DBRecord)) (type : String)
    (r : DBRecord) :
    objectsOf (s ++ [(type, r)]) type = objectsOf s type ++ [r] := by
  simp [objectsOf, List.filter_append]

/-- The state a successful `create` produces. -/
theorem create_ok_state {db st : DBState} {type : String}
    {props rec : DBRecord} {ctx : List JSVal}
    (h : Database.create db type props ctx = (.ok rec, st)) :
    rec = props ∧
    st = Database.alertListeners
      { db with store := db.store ++ [(type, props)],
                trace := db.trace ++ [.storeCreate type props] }
      ⟨.CREATE, some type, some props, ctx⟩ := by
  unfold Database.create at h
  rcases hr : realmCreate db.schema db.store type props false
    with e | ⟨obj, store'⟩ <;> rw [hr] at h
  · simp at h
  · obtain ⟨rfl, rfl⟩ := realmCreate_false_ok hr
    simp only [Prod.mk.injEq, Except.ok.injEq] at h
    exact ⟨h.1.symm, h.2.symm⟩

/-- C5: two successive `getOrCreate` calls with the same non-empty primary
key and no intervening mutation: when the first call succeeds with a record,
the second call returns that very record, and per registered listener the two
calls together deliver exactly one CREATE notification when the record was
initially absent and none when it already existed. -/
theorem C5_getOrCreate (db : DBState) (type pk pkField : String)
    (ctx : List JSVal) (rec1 : DBRecord) (db1 : DBState)
    (h1 : Database.getOrCreate db type (some pk) pkField ctx =
      (.ok (some rec1), db1)) :
    ∃ db2, Database.getOrCreate db1 type (some pk) pkField ctx =
        (.ok (some rec1), db2) ∧
      (∀ l, db.listeners.Nodup → l ∈ db.listeners →
        countCreate db db2 l =
          if (Database.get db type (some pk) pkField).1 = none then 1
          else 0) := by
  by_cases hlen : pk.length < 1
  · simp [Database.getOrCreate, hlen] at h1
  have hget1 : (Database.get db type (some pk) pkField).1 =
      ((objectsOf db.store type).filter
        (fun r => r.get pkField == JSVal.str pk)).head? := by
    simp [Database.get, hlen, Database.queryFiltered]
  rcases hq : ((objectsOf db.store type).filter
      (fun r => r.get pkField == JSVal.str pk)).head? with _ | r
  · -- record absent: the first call creates it
    have e1 : Database.getOrCreate db type (some pk) pkField ctx =
        (match Database.create
            { db with trace := db.trace ++ [.storeQuery type] }
            type ⟨[(pkField, .str pk)], false⟩ ctx with
         | (.ok object, db2) => (.ok (some object), db2)
         | (.error err, db2) => (.error err, db2)) := by
      simp [Database.getOrCreate, hlen, Database.get, Database.queryFiltered, hq]
    rcases hcr : Database.create
        { db with trace := db.trace ++ [.storeQuery type] }
        type ⟨[(pkField, .str pk)], false⟩ ctx with ⟨cres, dbc⟩
    rw [e1, hcr] at h1
    cases cres with
    | error err => simp at h1
    | ok obj =>
      simp only [Prod.mk.injEq, Except.ok.injEq, Option.some.injEq] at h1
      obtain ⟨rfl, rfl⟩ := h1
      obtain ⟨rfl, hdb1⟩ := create_ok_state hcr
      have hs1 : dbc.store =
          db.store ++ [(type, (⟨[(pkField, .str pk)], false⟩ : DBRecord))] := by
        simp [hdb1]
      have hl1 : dbc.listeners = db.listeners := by simp [hdb1]
      have hfP : ((⟨[(pkField, .str pk)], false⟩ : DBRecord).get pkField ==
          JSVal.str pk) = true := by
        simp [DBRecord.get]
      have hfilter : (objectsOf dbc.store type).filter
          (fun r => r.get pkField == JSVal.str pk) =
          [⟨[(pkField, .str pk)], false⟩] := by
        rw [hs1, objectsOf_append, List.filter_append,
          List.head?_eq_none_iff.mp hq]
        simp [hfP]
      have e2 : Database.getOrCreate dbc type (some pk) pkField ctx =
          (.ok (some (⟨[(pkField, .str pk)], false⟩ : DBRecord)),
           { dbc with trace := dbc.trace ++ [.storeQuery type] }) := by
        simp [Database.getOrCreate, hlen, Database.get,
          Database.queryFiltered, hfilter]
      refine ⟨_, e2, ?_⟩
      intro l hnd hl
      have htr2 : ({ dbc with trace := dbc.trace ++ [.storeQuery type] }
          : DBState).trace = db.trace ++
          ([.storeQuery type] ++ ([.storeCreate type ⟨[(pkField, .str pk)], false⟩] ++
            (db.listeners.map (fun x => .notify x
              ⟨.CREATE, some type, some ⟨[(pkField, .str pk)], false⟩, ctx⟩) ++
             [.storeQuery type]))) := by
        rw [hdb1]
        simp [Database.alertListeners]
      rw [countCreate, notifDelta_of_append l htr2]
      simp only [List.filterMap_append, List.filterMap_cons, List.filterMap_nil,
        pickFor_storeQuery, pickFor_storeCreate,
        filterMap_pickFor_map_mem hnd hl]
      rw [hget1, hq]
      simp
  · -- record present: both calls just look it up
    have e1 : Database.getOrCreate db type (some pk) pkField ctx =
        (.ok (some r), { db with trace := db.trace ++ [.storeQuery type] }) := by
      simp [Database.getOrCreate, hlen, Database.get, Database.queryFiltered, hq]
    rw [e1] at h1
    simp only [Prod.mk.injEq, Except.ok.injEq, Option.some.injEq] at h1
    obtain ⟨rfl, rfl⟩ := h1
    have e2 : Database.getOrCreate
        { db with trace := db.trace ++ [.storeQuery type] }
        type (some pk) pkField ctx =
        (.ok (some r),
         { db with trace := (db.trace ++ [.storeQuery type]) ++
            [.storeQuery type] }) := by
      simp [Database.getOrCreate, hlen, Database.get, Database.queryFiltered, hq]
    refine ⟨_, e2, ?_⟩
    intro l hnd hl
    have htr2 : ({ db with trace := (db.trace ++ [.storeQuery type]) ++
        [.storeQuery type] } : DBState).trace =
        db.trace ++ ([.storeQuery type] ++ [.storeQuery type]) := by
      simp
    rw [countCreate, notifDelta_of_append l htr2]
    rw [hget1, hq]
    simp


theorem C5_getOrCreate_witness :
    Database.getOrCreate wDb1 "User" (some "7") "id" [] =
      (.ok (some ⟨[("id", JSVal.str "7")], false⟩),
       (Database.getOrCreate wDb1 "User" (some "7") "id" []).2) ∧
    (∃ db2, Database.getOrCreate
        (Database.getOrCreate wDb1 "User" (some "7") "id" []).2
        "User" (some "7") "id" [] =
        (.ok (some ⟨[("id", JSVal.str "7")], false⟩), db2) ∧
      (∀ l, wDb1.listeners.Nodup → l ∈ wDb1.listeners →
        countCreate wDb1 db2 l =
          if (Database.get wDb1 "User" (some "7") "id").1 = none then 1
          else 0)) :=
  ⟨by rfl, C5_getOrCreate wDb1 "User" "7" "id" [] _ _ (by rfl)⟩

/-! ## Settings lemmas -/

theorem head_filter_map_filter {α β : Type} (l : List α) (p : α → Bool)
    (f : α → β) (q : β → Bool) :
    (((l.filter p).map f).filter q).head? =
      (l.find? (fun x => p x && q (f x))).map f := by
  induction l with
  | nil => rfl
  | cons a tl ih =>
    by_cases hp : p a = true
    · by_cases hq : q (f a) = true
      · simp [List.filter_cons, List.find?_cons, hp, hq]
      · simp [List.filter_cons, List.find?_cons, hp, hq, ih]
    · simp [List.filter_cons, List.find?_cons, hp, ih]

theorem find?_filter_eq {α : Type} (l : List α) (g p : α → Bool)
    (hgp : ∀ x, p x = true → g x = true) :
    (l.filter g).find? p = l.find? p := by
  induction l with
  | nil => rfl
  | cons a tl ih =>
    by_cases hp : p a = true
    · have hg := hgp a hp
      simp [List.filter_cons, hg, List.find?_cons, hp]
    · by_cases hg : g a = true <;>
        simp [List.filter_cons, hg, List.find?_cons, hp, ih]

theorem overrideWith_fst (new : DBRecord) (p : String × JSVal) :
    (overrideWith new p).1 = p.1 := by
  unfold overrideWith
  split <;> rfl

theorem merge_get {old new : DBRecord} {f : String} {q : String × JSVal}
    (h : new.fields.find? (fun p => p.1 == f) = some q) :
    (old.merge new).get f = q.2 := by
  unfold DBRecord.merge DBRecord.get
  have hcomp : ((fun p : String × JSVal => p.1 == f) ∘ overrideWith new) =
      (fun p : String × JSVal => p.1 == f) := by
    funext x
    simp [Function.comp, overrideWith_fst]
  have hmap : ((old.fields.map (overrideWith new)).find?
      (fun p => p.1 == f)) =
      (old.fields.find? (fun p => p.1 == f)).map (overrideWith new) := by
    rw [List.find?_map, hcomp]
  rw [List.find?_append, hmap]
  rcases hold : old.fields.find? (fun p => p.1 == f) with _ | p0
  · -- old has no f field: look in the filtered new fields
    have hnone : ∀ x ∈ old.fields, ¬((x.1 == f) = true) :=
      List.find?_eq_none.mp hold
    have hfilter : (new.fields.filter
        (fun p => !(old.fields.any (fun r => r.1 == p.1)))).find?
        (fun p => p.1 == f) = some q := by
      rw [find?_filter_eq]
      · exact h
      · intro x hx
        have hxf : x.1 = f := by simpa using hx
        simp only [Bool.not_eq_true', List.any_eq_false]
        intro r hr
        have := hnone r hr
        simp only [beq_iff_eq] at this ⊢
        rw [hxf]
        exact this
    rw [hold, hfilter]
    simp
  · -- old has an f field at p0; it is overridden with the new value
    have hp0 : p0.1 = f := by
      have := List.find?_some hold
      simpa using this
    have hov : overrideWith new p0 = (p0.1, q.2) := by
      unfold overrideWith
      rw [hp0, h]
    rw [hold]
    simp [hov]

theorem upsertIn_none {type pkF : String} {v : JSVal} {props : DBRecord} :
    ∀ {store store' : List (String × DBRecord)},
    upsertIn type pkF v props store = (none, store') →
    store' = store ∧
      store.find? (fun e => e.1 == type && e.2.get pkF == v) = none := by
  intro store
  induction store with
  | nil =>
    intro store' h
    simp only [upsertIn, Prod.mk.injEq] at h
    exact ⟨h.2.symm, rfl⟩
  | cons e tl ih =>
    intro store' h
    by_cases hQ : (e.1 == type && e.2.get pkF == v) = true
    · simp [upsertIn, hQ] at h
    · simp only [upsertIn, hQ, Bool.false_eq_true, reduceIte,
        Prod.mk.injEq] at h
      obtain ⟨h1, h2⟩ := h
      obtain ⟨h3, h4⟩ := ih (Prod.ext h1 rfl)
      refine ⟨by rw [← h2]; exact congrArg (List.cons e) h3, ?_⟩
      rw [List.find?_cons]
      simp only [hQ]
      exact h4

theorem upsertIn_some {type pkF : String} {v : JSVal} {props : DBRecord}
    (hm : ∀ old : DBRecord, ((old.merge props).get pkF == v) = true) :
    ∀ {store store' : List (String × DBRecord)} {m : DBRecord},
    upsertIn type pkF v props store = (some m, store') →
    store'.find? (fun e => e.1 == type && e.2.get pkF == v) =
      some (type, m) ∧ ∃ old : DBRecord, m = old.merge props := by
  intro store
  induction store with
  | nil => intro store' m h; simp [upsertIn] at h
  | cons e tl ih =>
    intro store' m h
    by_cases hQ : (e.1 == type && e.2.get pkF == v) = true
    · simp only [upsertIn, hQ, reduceIte, Prod.mk.injEq,
        Option.some.injEq] at h
      obtain ⟨h1, h2⟩ := h
      have htype : e.1 = type := by
        have := (Bool.and_eq_true _ _).mp hQ
        simpa using this.1
      subst h1
      rw [← h2, List.find?_cons]
      have hpred : ((e.1 == type && (e.2.merge props).get pkF == v)) = true := by
        rw [Bool.and_eq_true]
        exact ⟨by simp [htype], hm e.2⟩
      simp only [hpred]
      exact ⟨by rw [htype], ⟨e.2, rfl⟩⟩
    · simp only [upsertIn, hQ, Bool.false_eq_true, reduceIte,
        Prod.mk.injEq] at h
      obtain ⟨h1, h2⟩ := h
      obtain ⟨h3, h4⟩ := ih (Prod.ext h1 rfl)
      rw [← h2, List.find?_cons]
      simp only [hQ]
      exact ⟨h3, h4⟩

theorem settingsGet_fst (db : DBState) (k : String) :
    (Settings.get db k).1 =
      (match settingEntry db k with
       | some e => e.2.get "value"
       | none => JSVal.str "") := by
  have hb := head_filter_map_filter db.store (fun e => e.1 == "Setting")
    (fun e => e.2) (fun r => r.get "key" == JSVal.str k)
  rcases hfl : (objectsOf db.store "Setting").filter
      (fun r => r.get "key" == JSVal.str k) with _ | ⟨r, rest⟩
  · have hfind : settingEntry db k = none := by
      rw [settingEntry]
      have : ((objectsOf db.store "Setting").filter
          (fun r => r.get "key" == JSVal.str k)).head? = none := by
        rw [hfl]; rfl
      rw [objectsOf] at this
      rw [this] at hb
      exact Option.map_eq_none'.mp hb.symm
    rw [hfind]
    unfold Settings.get Database.queryFiltered
    simp only [hfl]
  · have hhead : ((objectsOf db.store "Setting").filter
        (fun r => r.get "key" == JSVal.str k)).head? = some r := by
      rw [hfl]; rfl
    rw [objectsOf] at hhead
    rw [hhead] at hb
    obtain ⟨e0, he0, he0r⟩ := Option.map_eq_some'.mp hb.symm
    have hfind : settingEntry db k = some e0 := by
      rw [settingEntry]; exact he0
    rw [hfind]
    unfold Settings.get Database.queryFiltered
    simp only [hfl, he0r]

theorem write_snd_ok {α : Type} {db : DBState}
    {f : DBState → Except DBError α × DBState} {a : α}
    (h : (f db).1 = Except.ok a) :
    Database.write db f = (Except.ok a, (f db).2) := by
  unfold Database.write
  rcases hf : f db with ⟨res, st⟩
  rw [hf] at h
  dsimp only at h
  subst h
  rfl

theorem eraseRecord_find?_none {k : String} :
    ∀ {store : List (String × DBRecord)} {e0 : String × DBRecord},
    (store.filter (fun e => e.2.get "key" == JSVal.str k)).length ≤ 1 →
    store.find? (fun e => e.1 == "Setting" && e.2.get "key" == JSVal.str k) =
      some e0 →
    (eraseRecord store e0.2).find?
      (fun e => e.1 == "Setting" && e.2.get "key" == JSVal.str k) = none := by
  intro store
  induction store with
  | nil => intro e0 hlen hf; cases hf
  | cons a tl ih =>
    intro e0 hlen hf
    by_cases hQ : (a.1 == "Setting" && a.2.get "key" == JSVal.str k) = true
    · rw [List.find?_cons] at hf
      simp only [hQ] at hf
      obtain rfl : a = e0 := by simpa using hf
      have hP : (a.2.get "key" == JSVal.str k) = true :=
        ((Bool.and_eq_true _ _).mp hQ).2
      have hlen0 : (List.filter
          (fun e => e.2.get "key" == JSVal.str k) tl).length = 0 := by
        rw [List.filter_cons, if_pos hP, List.length_cons] at hlen
        omega
      have hflt : List.filter
          (fun e => e.2.get "key" == JSVal.str k) tl = [] :=
        List.length_eq_zero.mp hlen0
      have herase : eraseRecord (a :: tl) a.2 = tl := by
        unfold eraseRecord
        simp
      rw [herase, List.find?_eq_none]
      intro x hx hQx
      have hPx : (x.2.get "key" == JSVal.str k) = true :=
        ((Bool.and_eq_true _ _).mp hQx).2
      have hmem : x ∈ List.filter (fun e => e.2.get "key" == JSVal.str k) tl :=
        List.mem_filter.mpr ⟨hx, hPx⟩
      rw [hflt] at hmem
      cases hmem
    · rw [List.find?_cons] at hf
      simp only [hQ, Bool.false_eq_true] at hf
      have he0 : e0 ∈ tl := List.mem_of_find?_eq_some hf
      have he0Q := List.find?_some hf
      simp only [Bool.and_eq_true] at he0Q
      have he0P : (e0.2.get "key" == JSVal.str k) = true := he0Q.2
      by_cases hE : (a.2 == e0.2) = true
      · exfalso
        have haP : (a.2.get "key" == JSVal.str k) = true := by
          have ha2 : a.2 = e0.2 := by simpa using hE
          rw [ha2]
          exact he0P
        have h1 : e0 ∈ List.filter
            (fun e => e.2.get "key" == JSVal.str k) tl :=
          List.mem_filter.mpr ⟨he0, he0P⟩
        have h2 : 0 < (List.filter
            (fun e => e.2.get "key" == JSVal.str k) tl).length :=
          List.length_pos.mpr (List.ne_nil_of_mem h1)
        rw [List.filter_cons, if_pos haP, List.length_cons] at hlen
        omega
      · have herase : eraseRecord (a :: tl) e0.2 =
            a :: eraseRecord tl e0.2 := by
          simp only [eraseRecord]
          rw [if_neg hE]
        rw [herase, List.find?_cons]
        simp only [hQ, Bool.false_eq_true]
        apply ih ?_ hf
        rw [List.filter_cons] at hlen
        by_cases haP : (a.2.get "key" == JSVal.str k) = true
        · rw [if_pos haP, List.length_cons] at hlen
          omega
        · rwa [if_neg haP] at hlen

theorem realmCreate_upsert_eq (schema : List TableSchema)
    (store : List (String × DBRecord)) (type : String) (props : DBRecord)
    (ts : TableSchema) (pkF : String)
    (hts : findSchema schema type = some ts)
    (hpk : ts.primaryKey = some pkF) :
    realmCreate schema store type props true =
      (match upsertIn type pkF (props.get pkF) props store with
       | (some m, store') => .ok (m, store')
       | (none, _) => .ok (props, store ++ [(type, props)])) := by
  simp [realmCreate, hts, hpk]

theorem update_setting (db : DBState) (k sv : String)
    (hschema : findSchema db.schema "Setting" = some SettingSchema) :
    ∃ m st, Database.update db "Setting"
        ⟨[("key", JSVal.str k), ("value", JSVal.str sv)], false⟩ [] =
        (.ok m, st) ∧
      st.store.find?
        (fun e => e.1 == "Setting" && e.2.get "key" == JSVal.str k) =
        some ("Setting", m) ∧
      m.get "value" = JSVal.str sv ∧
      st.listeners = db.listeners := by
  set P : DBRecord :=
    ⟨[("key", JSVal.str k), ("value", JSVal.str sv)], false⟩ with hPdef
  have hPk : P.fields.find? (fun p => p.1 == "key") =
      some ("key", JSVal.str k) := rfl
  have hPv : P.fields.find? (fun p => p.1 == "value") =
      some ("value", JSVal.str sv) := rfl
  have hPkv : P.get "key" = JSVal.str k := rfl
  have hPvv : P.get "value" = JSVal.str sv := rfl
  have hm : ∀ old : DBRecord,
      ((old.merge P).get "key" == JSVal.str k) = true := by
    intro old
    rw [merge_get hPk]
    simp
  have hrc := realmCreate_upsert_eq db.schema db.store "Setting" P
    SettingSchema "key" hschema rfl
  rw [hPkv] at hrc
  rcases hui : upsertIn "Setting" "key" (JSVal.str k) P db.store
    with ⟨mo, store2⟩
  rw [hui] at hrc
  cases mo with
  | some m =>
    obtain ⟨hfind, old, hmold⟩ := upsertIn_some hm hui
    have hupd : Database.update db "Setting" P [] =
        (.ok m, (Database.update db "Setting" P []).2) := by
      unfold Database.update
      simp only [hrc, alertListeners_store, alertListeners_listeners]
    have hst : (Database.update db "Setting" P []).2.store = store2 := by
      unfold Database.update
      simp only [hrc, alertListeners_store, alertListeners_listeners]
    have hls : (Database.update db "Setting" P []).2.listeners =
        db.listeners := by
      unfold Database.update
      simp only [hrc, alertListeners_store, alertListeners_listeners]
    refine ⟨m, (Database.update db "Setting" P []).2, hupd, ?_, ?_, hls⟩
    · rw [hst]
      exact hfind
    · rw [hmold]
      exact merge_get hPv
  | none =>
    obtain ⟨-, hnone⟩ := upsertIn_none hui
    have hupd : Database.update db "Setting" P [] =
        (.ok P, (Database.update db "Setting" P []).2) := by
      unfold Database.update
      simp only [hrc, alertListeners_store, alertListeners_listeners]
    have hst : (Database.update db "Setting" P []).2.store =
        db.store ++ [("Setting", P)] := by
      unfold Database.update
      simp only [hrc, alertListeners_store, alertListeners_listeners]
    have hls : (Database.update db "Setting" P []).2.listeners =
        db.listeners := by
      unfold Database.update
      simp only [hrc, alertListeners_store, alertListeners_listeners]
    refine ⟨P, (Database.update db "Setting" P []).2, hupd, ?_, hPvv, hls⟩
    rw [hst, List.find?_append, hnone]
    simp [List.find?_cons, hPkv]

theorem settings_set_ok (db : DBState) (k : String) (v : JSVal) (s : String)
    (hv : v.toStringJS = some s)
    (hschema : findSchema db.schema "Setting" = some SettingSchema) :
    (Settings.set db k v).1 = Except.ok () ∧
    ∃ m : DBRecord,
      settingEntry (Settings.set db k v).2 k = some ("Setting", m) ∧
      m.get "value" = JSVal.str s := by
  obtain ⟨m, st, hupd, hfind, hval, -⟩ := update_setting db k s hschema
  have hf : (fun st => match v.toStringJS with
      | none => ((.error .typeError : Except DBError Unit), st)
      | some s =>
        let r := Database.update st "Setting"
          ⟨[("key", .str k), ("value", .str s)], false⟩ []
        (r.1.map (fun _ => ()), r.2)) db = (Except.ok (), st) := by
    rw [hv]
    simp only [hupd]
    rfl
  have hw := write_snd_ok (f := fun st => match v.toStringJS with
      | none => ((.error .typeError : Except DBError Unit), st)
      | some s =>
        let r := Database.update st "Setting"
          ⟨[("key", .str k), ("value", .str s)], false⟩ []
        (r.1.map (fun _ => ()), r.2)) (a := ()) (by rw [hf])
  have hset : Settings.set db k v = (Except.ok (), st) := by
    unfold Settings.set
    rw [hw, hf]
  rw [hset]
  exact ⟨rfl, m, hfind, hval⟩

theorem settingEntry_eq_none_of_filter_nil (db : DBState) (k : String)
    (hfl : (objectsOf db.store "Setting").filter
      (fun r => r.get "key" == JSVal.str k) = []) :
    settingEntry db k = none := by
  have hb := head_filter_map_filter db.store (fun e => e.1 == "Setting")
    (fun e => e.2) (fun r => r.get "key" == JSVal.str k)
  rw [objectsOf] at hfl
  rw [hfl] at hb
  exact Option.map_eq_none'.mp hb.symm

/-- C8: the Settings facade: after `set(k, v)` (v non-nullish, coerced to its
string representation), `get(k)` returns that string; after `delete(k)`,
`get(k)` returns the empty string; `get` of a never-set key returns the empty
string — `get` always returns a string sentinel, never null and never an
error. -/
theorem C8_settings (db : DBState) (k : String) :
    (∀ v s, v.toStringJS = some s →
      findSchema db.schema "Setting" = some SettingSchema →
      (Settings.set db k v).1 = Except.ok () ∧
      (Settings.get (Settings.set db k v).2 k).1 = JSVal.str s) ∧
    ((db.store.filter (fun e => e.2.get "key" == JSVal.str k)).length ≤ 1 →
      (Settings.get (Settings.delete db k) k).1 = JSVal.str "") ∧
    (settingEntry db k = none → (Settings.get db k).1 = JSVal.str "") := by
  refine ⟨?_, ?_, ?_⟩
  · intro v s hv hschema
    obtain ⟨hok, m, hfind, hval⟩ := settings_set_ok db k v s hv hschema
    refine ⟨hok, ?_⟩
    simp only [settingsGet_fst, hfind]
    exact hval
  · intro huniq
    rcases hfl : (objectsOf db.store "Setting").filter
        (fun r => r.get "key" == JSVal.str k) with _ | ⟨setting, rest⟩
    · -- no Setting with this key: delete leaves the store alone
      have hdel : Settings.delete db k =
          { db with trace := db.trace ++ [.storeQuery "Setting"] } := by
        unfold Settings.delete Database.write Database.queryFiltered
        dsimp only
        rw [hfl]
      have hent : settingEntry (Settings.delete db k) k = none := by
        rw [hdel]
        exact settingEntry_eq_none_of_filter_nil db k hfl
      simp only [settingsGet_fst, hent]
    · -- the first matching record is deleted
      have hhead : ((objectsOf db.store "Setting").filter
          (fun r => r.get "key" == JSVal.str k)).head? = some setting := by
        rw [hfl]; rfl
      have hb := head_filter_map_filter db.store (fun e => e.1 == "Setting")
        (fun e => e.2) (fun r => r.get "key" == JSVal.str k)
      rw [objectsOf] at hhead
      rw [hhead] at hb
      obtain ⟨e0, he0, he0r⟩ := Option.map_eq_some'.mp hb.symm
      have hdel : Settings.delete db k =
          Database.delete
            { db with trace := db.trace ++ [.storeQuery "Setting"] }
            "Setting" (.single setting) [] := by
        unfold Settings.delete Database.write Database.queryFiltered
        dsimp only
        rw [hfl]
      have hne : (RecordOrColl.single setting).toList ≠ [] := by
        simp [RecordOrColl.toList]
      obtain ⟨-, -, -, hst, -⟩ := delete_state
        { db with trace := db.trace ++ [.storeQuery "Setting"] }
        "Setting" (.single setting) [] hne
      have hstore : (Settings.delete db k).store =
          eraseRecord db.store setting := by
        rw [hdel, hst]
        rfl
      have hent : settingEntry (Settings.delete db k) k = none := by
        rw [settingEntry, hstore, ← he0r]
        exact eraseRecord_find?_none huniq he0
      simp only [settingsGet_fst, hent]
  · intro h
    simp only [settingsGet_fst, h]

/-- C10: `Settings.set` is not total in its value argument: `value.toString()`
throws on null and undefined — before doing any write, so the state is
completely unchanged — while for every non-nullish value the call succeeds
and the stored Setting value is the value's string representation. -/
theorem C10_set_totality (db : DBState) (k : String) :
    (Settings.set db k JSVal.null = (.error .typeError, db) ∧
     Settings.set db k JSVal.undefined = (.error .typeError, db)) ∧
    (∀ v s, v.toStringJS = some s →
      findSchema db.schema "Setting" = some SettingSchema →
      (Settings.set db k v).1 = Except.ok () ∧
      ∃ m, settingEntry (Settings.set db k v).2 k = some ("Setting", m) ∧
        m.get "value" = JSVal.str s) := by
  refine ⟨⟨rfl, rfl⟩, ?_⟩
  intro v s hv hschema
  obtain ⟨hok, m, hfind, hval⟩ := settings_set_ok db k v s hv hschema
  exact ⟨hok, m, hfind, hval⟩

theorem C8_settings_witness :
    (JSVal.str "v").toStringJS = some "v" ∧
    findSchema wDb1.schema "Setting" = some SettingSchema ∧
    (Settings.set wDb1 "k" (JSVal.str "v")).1 = Except.ok () ∧
    (Settings.get (Settings.set wDb1 "k" (JSVal.str "v")).2 "k").1 =
      JSVal.str "v" ∧
    (wDb1.store.filter
      (fun e => e.2.get "key" == JSVal.str "k")).length ≤ 1 ∧
    (Settings.get (Settings.delete wDb1 "k") "k").1 = JSVal.str "" :=
  ⟨rfl, by decide,
   ((C8_settings wDb1 "k").1 (JSVal.str "v") "v" rfl (by decide)).1,
   ((C8_settings wDb1 "k").1 (JSVal.str "v") "v" rfl (by decide)).2,
   by decide,
   (C8_settings wDb1 "k").2.1 (by decide)⟩

theorem C10_set_totality_witness :
    Settings.set wDb1 "k" JSVal.null = (.error .typeError, wDb1) ∧
    (JSVal.num 5).toStringJS = some "5" ∧
    findSchema wDb1.schema "Setting" = some SettingSchema ∧
    (Settings.set wDb1 "k" (JSVal.num 5)).1 = Except.ok () :=
  ⟨(C10_set_totality wDb1 "k").1.1, rfl, by decide,
   ((C10_set_totality wDb1 "k").2 (JSVal.num 5) "5" rfl (by decide)).1⟩
